import Mathlib

/-!
# Verification of the Team-4-APP reporting/aggregation engine

Shallow embedding of the aggregation logic of the personal-finance app:

* the `GET /api/reports` handler in `public/js/dashboard.js` (lines 561-628):
  four SQL queries over the authenticated user's `income`, `expense` and
  `budget` rows, assembled into the report payload
  `{totals, monthlyIncome, expensesByCategory, budgets}`;
* `aggregateByMonth` in `public/js/income.js` (lines 81-100), whose
  invalid-date handling (`if (isNaN(d)) return;`) is the source of the
  "drop unparseable dates from the series" behaviour;
* `unformatCurrency` in `income.js` / `expense.js` and the `|| 0` variant
  in `budget.js`;
* the `budgetsObj` / `budgets` per-category maps built by
  `report.js loadReport` and `budget.js loadEverything`.

Records are the rows of one user (the `WHERE user_email = ?` scoping is
modelled by taking the already-scoped row lists as input).  Monetary
amounts are exact (`Int`, standing for the DECIMAL column values); a date
is `Option CalDate`, `none` standing for a date value the date parser
rejects (`new Date(r.date)` giving `NaN`), since the parser itself is a
collaborator outside the engine.
-/

namespace Team4

/-- A calendar date `(year, month, day)` as stored in the `date` DATE
column.  Comparison of DATE values (and of the `'%Y-%m-01'` strings the
report query sorts by) is chronological, i.e. lexicographic. -/
structure CalDate where
  year : Nat
  month : Nat
  day : Nat
deriving DecidableEq

/-- A row of the `income` table (for one user). -/
structure IncomeRecord where
  source : String
  amount : Int
  date : Option CalDate
deriving DecidableEq

/-- A row of the `expense` table (for one user). -/
structure ExpenseRecord where
  category : String
  amount : Int
  date : Option CalDate
deriving DecidableEq

/-- A row of the `budget` table (for one user). -/
structure BudgetRecord where
  category : String
  amount : Int
deriving DecidableEq

/-- Chronological (lexicographic) order on dates: the order `ORDER BY date`
uses on the `'%Y-%m-01'` aliases in the monthly-income query. -/
def dateLe (a b : CalDate) : Prop :=
  a.year < b.year ∨ (a.year = b.year ∧
    (a.month < b.month ∨ (a.month = b.month ∧ a.day ≤ b.day)))

/-- Strict chronological order on dates. -/
def dateLt (a b : CalDate) : Prop :=
  a.year < b.year ∨ (a.year = b.year ∧
    (a.month < b.month ∨ (a.month = b.month ∧ a.day < b.day)))

instance : DecidableRel dateLe := fun a b =>
  inferInstanceAs (Decidable (_ ∨ _))

instance : DecidableRel dateLt := fun a b =>
  inferInstanceAs (Decidable (_ ∨ _))

instance : IsTotal CalDate dateLe :=
  ⟨by intro a b; simp only [dateLe]; omega⟩

instance : IsTrans CalDate dateLe :=
  ⟨by intro a b c; simp only [dateLe]; omega⟩

theorem dateLe_ne_lt {a b : CalDate} (h : dateLe a b) (hne : a ≠ b) :
    dateLt a b := by
  rcases a with ⟨ya, ma, da⟩
  rcases b with ⟨yb, mb, db⟩
  have h3 : ¬(ya = yb ∧ ma = mb ∧ da = db) := fun hc =>
    hne (by rw [hc.1, hc.2.1, hc.2.2])
  have hh : ya < yb ∨ (ya = yb ∧ (ma < mb ∨ (ma = mb ∧ da ≤ db))) := h
  show ya < yb ∨ (ya = yb ∧ (ma < mb ∨ (ma = mb ∧ da < db)))
  omega

/-- Distinct keys of a list, in order of first occurrence: the grouping
order `GROUP BY` produces before any `ORDER BY` is applied (taken here as
first-encounter order, since the SQL engine leaves it unspecified). -/
def firstKeys {α : Type} [DecidableEq α] (l : List α) : List α :=
  l.foldl (fun acc a => if a ∈ acc then acc else acc ++ [a]) []

theorem firstKeys_loop_mem {α : Type} [DecidableEq α] (l : List α) :
    ∀ (acc : List α) (x : α),
      x ∈ l.foldl (fun acc a => if a ∈ acc then acc else acc ++ [a]) acc ↔
        x ∈ acc ∨ x ∈ l := by
  induction l with
  | nil => intro acc x; simp
  | cons a l ih =>
    intro acc x
    simp only [List.foldl_cons, ih, List.mem_cons]
    by_cases ha : a ∈ acc
    · simp only [if_pos ha]
      constructor
      · rintro (hx | hx)
        · exact Or.inl hx
        · exact Or.inr (Or.inr hx)
      · rintro (hx | hx | hx)
        · exact Or.inl hx
        · exact Or.inl (hx ▸ ha)
        · exact Or.inr hx
    · simp only [if_neg ha, List.mem_append, List.mem_singleton]
      tauto

theorem firstKeys_loop_nodup {α : Type} [DecidableEq α] (l : List α) :
    ∀ acc : List α,
      acc.Nodup →
      (l.foldl (fun acc a => if a ∈ acc then acc else acc ++ [a]) acc).Nodup := by
  induction l with
  | nil => intro acc h; simpa
  | cons a l ih =>
    intro acc h
    simp only [List.foldl_cons]
    by_cases ha : a ∈ acc
    · rw [if_pos ha]; exact ih acc h
    · rw [if_neg ha]
      refine ih (acc ++ [a]) ?_
      simp [List.nodup_append, h, ha]

theorem mem_firstKeys {α : Type} [DecidableEq α] {l : List α} {x : α} :
    x ∈ firstKeys l ↔ x ∈ l := by
  simpa [firstKeys] using firstKeys_loop_mem l [] x

theorem firstKeys_nodup {α : Type} [DecidableEq α] (l : List α) :
    (firstKeys l).Nodup :=
  firstKeys_loop_nodup l [] List.nodup_nil

/-! ## Totals

`SELECT IFNULL(SUM(amount),0) AS income FROM income WHERE user_email=?`
and its `expense` twin: the sum of all amounts, `0` on the empty set. -/

/-- `totals.income`: sum of every income amount of the user. -/
def incomeSum (rows : List IncomeRecord) : Int :=
  (rows.map (·.amount)).sum

/-- `totals.expenses`: sum of every expense amount of the user. -/
def expenseSum (rows : List ExpenseRecord) : Int :=
  (rows.map (·.amount)).sum

/-! ## Monthly income series

`SELECT DATE_FORMAT(date, '%Y-%m-01') AS date, SUM(amount) AS total
 FROM income WHERE user_email=? GROUP BY DATE_FORMAT(date, '%Y-%m-01')
 ORDER BY date`.

A record whose date the parser rejects (`date = none`) carries no month
key, mirroring `aggregateByMonth`'s `if (isNaN(d)) return;` skip. -/

/-- `DATE_FORMAT(date, '%Y-%m-01')`: truncate a date to the first day of
its month. -/
def monthStart (d : CalDate) : CalDate :=
  ⟨d.year, d.month, 1⟩

/-- One row of the `monthlyIncome` series: a month key (first of month,
the `date` alias) and the summed amount (the `total` alias). -/
structure MonthTotal where
  date : CalDate
  total : Int
deriving DecidableEq

/-- The distinct month keys occurring among the (parseable) dates. -/
def monthKeys (rows : List IncomeRecord) : List CalDate :=
  firstKeys (rows.filterMap (fun r => r.date.map monthStart))

/-- `SUM(amount)` over the records of one month group. -/
def incomeForMonth (rows : List IncomeRecord) (k : CalDate) : Int :=
  ((rows.filter (fun r => r.date.map monthStart = some k)).map (·.amount)).sum

/-- The `monthlyInc` query result: one summed row per month, sorted
ascending by the month key. -/
def monthlyInc (rows : List IncomeRecord) : List MonthTotal :=
  (List.insertionSort dateLe (monthKeys rows)).map
    (fun k => ⟨k, incomeForMonth rows k⟩)

/-! ## Expenses by category

`SELECT category, SUM(amount) AS total FROM expense WHERE user_email=?
 GROUP BY category ORDER BY total DESC`. -/

/-- One grouped row: a category and its summed `total`. -/
structure CatTotal where
  category : String
  total : Int
deriving DecidableEq

/-- `SUM(amount)` over the expense records of one category. -/
def expenseForCat (rows : List ExpenseRecord) (c : String) : Int :=
  ((rows.filter (fun r => r.category = c)).map (·.amount)).sum

/-- The expense groups before ordering: one row per distinct category. -/
def catGroups (rows : List ExpenseRecord) : List CatTotal :=
  (firstKeys (rows.map (·.category))).map (fun c => ⟨c, expenseForCat rows c⟩)

/-- `ORDER BY total DESC` on grouped rows (stable on ties). -/
def catGE (a b : CatTotal) : Prop := b.total ≤ a.total

instance : DecidableRel catGE := fun a b =>
  inferInstanceAs (Decidable (_ ≤ _))

instance : IsTotal CatTotal catGE :=
  ⟨fun a b => (Int.le_total b.total a.total).imp id id⟩

instance : IsTrans CatTotal catGE :=
  ⟨fun _ _ _ h1 h2 => le_trans h2 h1⟩

/-- The `cats` query result: expense totals per category, descending. -/
def cats (rows : List ExpenseRecord) : List CatTotal :=
  List.insertionSort catGE (catGroups rows)

/-! ## Budgets by category

`SELECT category, SUM(amount) AS total FROM budget WHERE user_email=?
 GROUP BY category` (no `ORDER BY`), and
`total: bud.reduce((s, r) => s + Number(r.total), 0)`. -/

/-- `SUM(amount)` over the budget records of one category. -/
def budgetForCat (rows : List BudgetRecord) (c : String) : Int :=
  ((rows.filter (fun r => r.category = c)).map (·.amount)).sum

/-- The `bud` query result: budget totals per category. -/
def bud (rows : List BudgetRecord) : List CatTotal :=
  (firstKeys (rows.map (·.category))).map (fun c => ⟨c, budgetForCat rows c⟩)

/-- `budgets.total`: the JS `reduce` summing the grouped totals. -/
def budTotal (rows : List BudgetRecord) : Int :=
  (bud rows).foldl (fun s r => s + r.total) 0

/-! ## The assembled report payload -/

structure Totals where
  income : Int
  expenses : Int
  net : Int
deriving DecidableEq

structure Budgets where
  total : Int
  byCategory : List CatTotal
deriving DecidableEq

/-- The JSON object `res.json({...})` of the reports handler. -/
structure ReportPayload where
  totals : Totals
  monthlyIncome : List MonthTotal
  expensesByCategory : List CatTotal
  budgets : Budgets
deriving DecidableEq

/-- The whole `GET /api/reports` computation as a function of the three
row sets of one user. -/
def buildReport (income : List IncomeRecord) (expense : List ExpenseRecord)
    (budget : List BudgetRecord) : ReportPayload :=
  { totals :=
      { income := incomeSum income
        expenses := expenseSum expense
        net := incomeSum income - expenseSum expense }
    monthlyIncome := monthlyInc income
    expensesByCategory := cats expense
    budgets :=
      { total := budTotal budget
        byCategory := bud budget } }

/-! ## Helper lemmas -/

theorem mem_monthKeys {rows : List IncomeRecord} {k : CalDate} :
    k ∈ monthKeys rows ↔ ∃ r ∈ rows, ∃ d, r.date = some d ∧ monthStart d = k := by
  simp [monthKeys, mem_firstKeys, List.mem_filterMap, Option.map_eq_some']

theorem sortedMonthKeys_nodup (rows : List IncomeRecord) :
    (List.insertionSort dateLe (monthKeys rows)).Nodup :=
  ((List.perm_insertionSort dateLe (monthKeys rows)).nodup_iff).mpr
    (firstKeys_nodup _)

theorem mem_sortedMonthKeys {rows : List IncomeRecord} {k : CalDate} :
    k ∈ List.insertionSort dateLe (monthKeys rows) ↔ k ∈ monthKeys rows :=
  (List.perm_insertionSort dateLe (monthKeys rows)).mem_iff

theorem sortedMonthKeys_pairwise_lt (rows : List IncomeRecord) :
    List.Pairwise dateLt (List.insertionSort dateLe (monthKeys rows)) := by
  have hs : List.Pairwise dateLe (List.insertionSort dateLe (monthKeys rows)) :=
    List.sorted_insertionSort dateLe (monthKeys rows)
  have hn : List.Pairwise (fun a b => a ≠ b)
      (List.insertionSort dateLe (monthKeys rows)) := sortedMonthKeys_nodup rows
  exact (hs.and hn).imp fun h => dateLe_ne_lt h.1 h.2

theorem monthKeys_day {rows : List IncomeRecord} {k : CalDate}
    (hk : k ∈ monthKeys rows) : k.day = 1 := by
  rcases mem_monthKeys.mp hk with ⟨r, _, d, _, hd⟩
  rw [← hd]; rfl

theorem cats_perm (rows : List ExpenseRecord) :
    (cats rows).Perm (catGroups rows) :=
  List.perm_insertionSort catGE (catGroups rows)

theorem map_category_mk {β : Type} (f : String → β → CatTotal)
    (hf : ∀ c b, (f c b).category = c) (g : String → β) :
    ∀ l : List String, l.map (fun c => (f c (g c)).category) = l := by
  intro l
  induction l with
  | nil => rfl
  | cons a l ih => simp [ih, hf]

theorem catGroups_map_category (rows : List ExpenseRecord) :
    (catGroups rows).map (·.category) = firstKeys (rows.map (·.category)) := by
  simp only [catGroups, List.map_map]
  exact map_category_mk (fun c t => ⟨c, t⟩) (fun _ _ => rfl)
    (expenseForCat rows) _

theorem mem_cats (rows : List ExpenseRecord) {x : CatTotal} :
    x ∈ cats rows ↔ x ∈ catGroups rows :=
  (cats_perm rows).mem_iff

theorem mem_cats_category {rows : List ExpenseRecord} {c : String} :
    (∃ x ∈ cats rows, x.category = c) ↔ c ∈ rows.map (·.category) := by
  constructor
  · rintro ⟨x, hx, rfl⟩
    have hx2 : x ∈ catGroups rows := (mem_cats rows).mp hx
    simp only [catGroups, List.mem_map] at hx2
    rcases hx2 with ⟨c2, hc2, rfl⟩
    exact mem_firstKeys.mp hc2
  · intro hc
    refine ⟨⟨c, expenseForCat rows c⟩, ?_, rfl⟩
    rw [mem_cats]
    simp only [catGroups, List.mem_map]
    exact ⟨c, mem_firstKeys.mpr hc, rfl⟩

theorem mem_cats_total {rows : List ExpenseRecord} {x : CatTotal}
    (hx : x ∈ cats rows) : x.total = expenseForCat rows x.category := by
  have hx2 : x ∈ catGroups rows := (mem_cats rows).mp hx
  simp only [catGroups, List.mem_map] at hx2
  rcases hx2 with ⟨c2, _, rfl⟩
  rfl

theorem mem_bud_category {rows : List BudgetRecord} {c : String} :
    (∃ x ∈ bud rows, x.category = c) ↔ c ∈ rows.map (·.category) := by
  constructor
  · rintro ⟨x, hx, rfl⟩
    simp only [bud, List.mem_map] at hx
    rcases hx with ⟨c2, hc2, rfl⟩
    exact mem_firstKeys.mp hc2
  · intro hc
    refine ⟨⟨c, budgetForCat rows c⟩, ?_, rfl⟩
    simp only [bud, List.mem_map]
    exact ⟨c, mem_firstKeys.mpr hc, rfl⟩

theorem foldl_add_totals (l : List CatTotal) :
    ∀ s : Int, l.foldl (fun s r => s + r.total) s = s + (l.map (·.total)).sum := by
  induction l with
  | nil => intro s; simp
  | cons a l ih => intro s; simp [ih, add_assoc]

/-! ## Claim theorems -/

/-- C1: for every set of income records `I` and expense records `E` of one
user, `totals.income = Σ I.amount`, `totals.expenses = Σ E.amount` and
`totals.net = totals.income - totals.expenses`, exactly; on empty inputs
all three totals are `0` and the (total) computation raises no error. -/
theorem totals_additivity (i : List IncomeRecord) (e : List ExpenseRecord)
    (b : List BudgetRecord) :
    (buildReport i e b).totals.income = (i.map (·.amount)).sum
  ∧ (buildReport i e b).totals.expenses = (e.map (·.amount)).sum
  ∧ (buildReport i e b).totals.net =
      (buildReport i e b).totals.income - (buildReport i e b).totals.expenses
  ∧ (buildReport [] [] []).totals.income = 0
  ∧ (buildReport [] [] []).totals.expenses = 0
  ∧ (buildReport [] [] []).totals.net = 0 :=
  ⟨rfl, rfl, rfl, rfl, rfl, rfl⟩

/-- C2: `monthlyIncome` has exactly one entry per `(year, month)` occurring
among the records' parseable dates, keyed by the first day of that month,
with the month's summed amount, in strictly ascending chronological order
with no duplicate month keys. -/
theorem monthlyIncome_grouping (rows : List IncomeRecord) :
    ((monthlyInc rows).map (fun e => (e.date.year, e.date.month))).Nodup
  ∧ (∀ e ∈ monthlyInc rows, e.date.day = 1)
  ∧ (∀ y m : Nat,
      (∃ e ∈ monthlyInc rows, e.date.year = y ∧ e.date.month = m) ↔
        ∃ r ∈ rows, ∃ d, r.date = some d ∧ d.year = y ∧ d.month = m)
  ∧ (∀ e ∈ monthlyInc rows,
      e.total = ((rows.filter (fun r =>
        r.date.map (fun d => (d.year, d.month)) =
          some (e.date.year, e.date.month))).map (·.amount)).sum)
  ∧ List.Pairwise (fun e1 e2 => dateLt e1.date e2.date) (monthlyInc rows) := by
  have hday : ∀ k ∈ List.insertionSort dateLe (monthKeys rows), k.day = 1 :=
    fun k hk => monthKeys_day (mem_sortedMonthKeys.mp hk)
  refine ⟨?_, ?_, ?_, ?_, ?_⟩
  · have hmm : (monthlyInc rows).map (fun e => (e.date.year, e.date.month)) =
        (List.insertionSort dateLe (monthKeys rows)).map
          (fun k => (k.year, k.month)) := by
      simp only [monthlyInc, List.map_map]; rfl
    rw [hmm]
    refine (sortedMonthKeys_nodup rows).map_on ?_
    intro x hx y hy hxy
    have hx1 := hday x hx
    have hy1 := hday y hy
    rcases x with ⟨xy, xm, xd⟩
    rcases y with ⟨yy, ym, yd⟩
    simp only [Prod.mk.injEq] at hxy
    simp only at hx1 hy1
    rw [hxy.1, hxy.2, hx1, hy1]
  · intro e he
    simp only [monthlyInc, List.mem_map] at he
    rcases he with ⟨k, hk, rfl⟩
    exact hday k hk
  · intro y m
    constructor
    · rintro ⟨e, he, hy, hm⟩
      simp only [monthlyInc, List.mem_map] at he
      rcases he with ⟨k, hk, rfl⟩
      rcases mem_monthKeys.mp (mem_sortedMonthKeys.mp hk) with
        ⟨r, hr, d, hd, hmd⟩
      subst hmd
      exact ⟨r, hr, d, hd, hy, hm⟩
    · rintro ⟨r, hr, d, hd, hy, hm⟩
      refine ⟨⟨monthStart d, incomeForMonth rows (monthStart d)⟩, ?_, hy, hm⟩
      simp only [monthlyInc, List.mem_map]
      exact ⟨monthStart d,
        mem_sortedMonthKeys.mpr (mem_monthKeys.mpr ⟨r, hr, d, hd, rfl⟩), rfl⟩
  · intro e he
    simp only [monthlyInc, List.mem_map] at he
    rcases he with ⟨k, hk, rfl⟩
    have hk1 : k.day = 1 := hday k hk
    have hfil : rows.filter (fun r => r.date.map monthStart = some k) =
        rows.filter (fun r =>
          r.date.map (fun d => (d.year, d.month)) = some (k.year, k.month)) := by
      apply List.filter_congr
      intro r _
      apply decide_eq_decide.mpr
      cases hdate : r.date with
      | none => simp
      | some d =>
        simp only [Option.map_some', Option.some.injEq]
        constructor
        · rintro rfl; rfl
        · intro hp
          have h1 : d.year = k.year := congrArg Prod.fst hp
          have h2 : d.month = k.month := congrArg Prod.snd hp
          show (⟨d.year, d.month, 1⟩ : CalDate) = k
          rw [h1, h2, ← hk1]
    show incomeForMonth rows k =
      ((rows.filter (fun r =>
        r.date.map (fun d => (d.year, d.month)) =
          some (k.year, k.month))).map (·.amount)).sum
    unfold incomeForMonth
    rw [hfil]
  · have hp := sortedMonthKeys_pairwise_lt rows
    simp only [monthlyInc]
    exact List.pairwise_map.mpr hp

/-- C3: `expensesByCategory` has exactly one entry per distinct category
string (exact comparison), with the summed amount of that category, sorted
descending by summed total; on `{Rent,100},{Rent,50},{Food,30}` it is
`[{Rent,150},{Food,30}]`. -/
theorem expensesByCategory_grouping (rows : List ExpenseRecord) :
    ((cats rows).map (·.category)).Nodup
  ∧ (∀ c : String, (∃ x ∈ cats rows, x.category = c) ↔ c ∈ rows.map (·.category))
  ∧ (∀ x ∈ cats rows,
      x.total = ((rows.filter (fun r => r.category = x.category)).map
        (·.amount)).sum)
  ∧ List.Pairwise (fun a b => b.total ≤ a.total) (cats rows)
  ∧ cats [⟨"Rent", 100, none⟩, ⟨"Rent", 50, none⟩, ⟨"Food", 30, none⟩] =
      [⟨"Rent", 150⟩, ⟨"Food", 30⟩] := by
  refine ⟨?_, fun c => mem_cats_category, fun x hx => mem_cats_total hx, ?_, ?_⟩
  · have hper : ((cats rows).map (·.category)).Perm
        ((catGroups rows).map (·.category)) := (cats_perm rows).map _
    rw [hper.nodup_iff, catGroups_map_category]
    exact firstKeys_nodup _
  · exact List.sorted_insertionSort catGE (catGroups rows)
  · decide

/-- C4: multiple budget rows with one category are summed into a single
`byCategory` entry (no overwrite), and `budgets.total` is the sum of the
grouped totals; `{Rent,500},{Rent,500}` yields `{Rent,1000}` with total
`1000`. -/
theorem budgets_summation (rows : List BudgetRecord) :
    ((bud rows).map (·.category)).Nodup
  ∧ (∀ c : String, (∃ x ∈ bud rows, x.category = c) ↔ c ∈ rows.map (·.category))
  ∧ (∀ x ∈ bud rows,
      x.total = ((rows.filter (fun r => r.category = x.category)).map
        (·.amount)).sum)
  ∧ budTotal rows = ((bud rows).map (·.total)).sum
  ∧ bud [⟨"Rent", 500⟩, ⟨"Rent", 500⟩] = [⟨"Rent", 1000⟩]
  ∧ budTotal [⟨"Rent", 500⟩, ⟨"Rent", 500⟩] = 1000 := by
  refine ⟨?_, fun c => mem_bud_category, ?_, ?_, ?_, ?_⟩
  · have hmap : (bud rows).map (·.category) = firstKeys (rows.map (·.category)) := by
      simp only [bud, List.map_map]
      exact map_category_mk (fun c t => ⟨c, t⟩) (fun _ _ => rfl)
        (budgetForCat rows) _
    rw [hmap]
    exact firstKeys_nodup _
  · intro x hx
    simp only [bud, List.mem_map] at hx
    rcases hx with ⟨c2, _, rfl⟩
    rfl
  · rw [budTotal, foldl_add_totals, zero_add]
  · decide
  · decide

/-- C5: the category set of `expensesByCategory` is exactly the expense
records' categories and the category set of `budgets.byCategory` is exactly
the budget records' categories; neither grouped sequence gains or drops a
category based on the other input. -/
theorem category_independence (erows : List ExpenseRecord)
    (brows : List BudgetRecord) :
    (∀ c : String,
      (∃ x ∈ (buildReport [] erows brows).expensesByCategory, x.category = c) ↔
        c ∈ erows.map (·.category))
  ∧ (∀ c : String,
      (∃ x ∈ (buildReport [] erows brows).budgets.byCategory, x.category = c) ↔
        c ∈ brows.map (·.category))
  ∧ ((cats [⟨"A", 5, none⟩, ⟨"B", 3, none⟩]).map (·.category) = ["A", "B"]
      ∧ (bud [⟨"B", 1⟩, ⟨"C", 2⟩]).map (·.category) = ["B", "C"]) := by
  refine ⟨fun c => mem_cats_category, fun c => mem_bud_category, by decide, by decide⟩

/-! ## Invalid-date handling (C6, C8) -/

theorem incomeSum_insert (pre post : List IncomeRecord) (r : IncomeRecord) :
    incomeSum (pre ++ r :: post) = incomeSum (pre ++ post) + r.amount := by
  simp only [incomeSum, List.map_append, List.sum_append, List.map_cons,
    List.sum_cons]
  ring

theorem monthKeys_skip_none (pre post : List IncomeRecord) (r : IncomeRecord)
    (h : r.date = none) :
    monthKeys (pre ++ r :: post) = monthKeys (pre ++ post) := by
  simp [monthKeys, List.filterMap_append, h]

theorem incomeForMonth_skip_none (pre post : List IncomeRecord)
    (r : IncomeRecord) (h : r.date = none) (k : CalDate) :
    incomeForMonth (pre ++ r :: post) k = incomeForMonth (pre ++ post) k := by
  simp [incomeForMonth, List.filter_append, h]

theorem monthlyInc_skip_none (pre post : List IncomeRecord) (r : IncomeRecord)
    (h : r.date = none) :
    monthlyInc (pre ++ r :: post) = monthlyInc (pre ++ post) := by
  unfold monthlyInc
  rw [monthKeys_skip_none pre post r h]
  apply List.map_congr_left
  intro k _
  rw [incomeForMonth_skip_none pre post r h k]

/-- C6: an income record whose date is unparseable does not crash the
aggregation: it is excluded from the `monthlyIncome` series (wherever it
sits in the input), but its amount still counts toward `totals.income`. -/
theorem malformed_date_resilience (pre post : List IncomeRecord)
    (r : IncomeRecord) (h : r.date = none) :
    incomeSum (pre ++ r :: post) = incomeSum (pre ++ post) + r.amount
  ∧ monthlyInc (pre ++ r :: post) = monthlyInc (pre ++ post) :=
  ⟨incomeSum_insert pre post r, monthlyInc_skip_none pre post r h⟩

theorem malformed_date_resilience_witness :
    incomeSum ([⟨"Job", 100, some ⟨2024, 1, 5⟩⟩] ++ ⟨"Bad", 42, none⟩ :: []) =
      incomeSum ([⟨"Job", 100, some ⟨2024, 1, 5⟩⟩] ++ []) + 42
  ∧ monthlyInc ([⟨"Job", 100, some ⟨2024, 1, 5⟩⟩] ++ ⟨"Bad", 42, none⟩ :: []) =
      monthlyInc ([⟨"Job", 100, some ⟨2024, 1, 5⟩⟩] ++ []) :=
  malformed_date_resilience [⟨"Job", 100, some ⟨2024, 1, 5⟩⟩] []
    ⟨"Bad", 42, none⟩ rfl

/-- C7: report generation is deterministic: two calls with identical
income, expense and budget inputs produce identical `ReportPayload`
values.  (The embedded `buildReport` is a total pure function of its three
input lists: it performs no I/O and cannot mutate its inputs.) -/
theorem report_deterministic (i1 i2 : List IncomeRecord)
    (e1 e2 : List ExpenseRecord) (b1 b2 : List BudgetRecord)
    (hi : i1 = i2) (he : e1 = e2) (hb : b1 = b2) :
    buildReport i1 e1 b1 = buildReport i2 e2 b2 := by
  rw [hi, he, hb]

theorem report_deterministic_witness :
    buildReport [⟨"Job", 100, some ⟨2024, 1, 5⟩⟩] [⟨"Rent", 40, none⟩]
        [⟨"Rent", 60⟩] =
      buildReport [⟨"Job", 100, some ⟨2024, 1, 5⟩⟩] [⟨"Rent", 40, none⟩]
        [⟨"Rent", 60⟩] :=
  report_deterministic _ _ _ _ _ _ rfl rfl rfl

/-- C8: report generation is total under one uniformly applied
skip-and-continue policy: with a malformed-date record inserted anywhere
in the input, `buildReport` still returns a full payload (it is a total
function); the bad row is dropped from the monthly series, kept in the
income totals, and every other payload component is unchanged. -/
theorem report_skip_and_continue (pre post : List IncomeRecord)
    (r : IncomeRecord) (e : List ExpenseRecord) (b : List BudgetRecord)
    (h : r.date = none) :
    (buildReport (pre ++ r :: post) e b).totals.income =
      (buildReport (pre ++ post) e b).totals.income + r.amount
  ∧ (buildReport (pre ++ r :: post) e b).totals.expenses =
      (buildReport (pre ++ post) e b).totals.expenses
  ∧ (buildReport (pre ++ r :: post) e b).totals.net =
      (buildReport (pre ++ post) e b).totals.net + r.amount
  ∧ (buildReport (pre ++ r :: post) e b).monthlyIncome =
      (buildReport (pre ++ post) e b).monthlyIncome
  ∧ (buildReport (pre ++ r :: post) e b).expensesByCategory =
      (buildReport (pre ++ post) e b).expensesByCategory
  ∧ (buildReport (pre ++ r :: post) e b).budgets =
      (buildReport (pre ++ post) e b).budgets := by
  refine ⟨incomeSum_insert pre post r, rfl, ?_, monthlyInc_skip_none pre post r h,
    rfl, rfl⟩
  show incomeSum (pre ++ r :: post) - expenseSum e =
    incomeSum (pre ++ post) - expenseSum e + r.amount
  rw [incomeSum_insert pre post r]
  ring

theorem report_skip_and_continue_witness :
    (buildReport ([⟨"Job", 100, some ⟨2024, 1, 5⟩⟩] ++ ⟨"Bad", 42, none⟩ :: [])
        [⟨"Rent", 40, none⟩] [⟨"Rent", 60⟩]).totals.income =
      (buildReport ([⟨"Job", 100, some ⟨2024, 1, 5⟩⟩] ++ [])
        [⟨"Rent", 40, none⟩] [⟨"Rent", 60⟩]).totals.income + 42
  ∧ (buildReport ([⟨"Job", 100, some ⟨2024, 1, 5⟩⟩] ++ ⟨"Bad", 42, none⟩ :: [])
        [⟨"Rent", 40, none⟩] [⟨"Rent", 60⟩]).totals.expenses =
      (buildReport ([⟨"Job", 100, some ⟨2024, 1, 5⟩⟩] ++ [])
        [⟨"Rent", 40, none⟩] [⟨"Rent", 60⟩]).totals.expenses
  ∧ (buildReport ([⟨"Job", 100, some ⟨2024, 1, 5⟩⟩] ++ ⟨"Bad", 42, none⟩ :: [])
        [⟨"Rent", 40, none⟩] [⟨"Rent", 60⟩]).totals.net =
      (buildReport ([⟨"Job", 100, some ⟨2024, 1, 5⟩⟩] ++ [])
        [⟨"Rent", 40, none⟩] [⟨"Rent", 60⟩]).totals.net + 42
  ∧ (buildReport ([⟨"Job", 100, some ⟨2024, 1, 5⟩⟩] ++ ⟨"Bad", 42, none⟩ :: [])
        [⟨"Rent", 40, none⟩] [⟨"Rent", 60⟩]).monthlyIncome =
      (buildReport ([⟨"Job", 100, some ⟨2024, 1, 5⟩⟩] ++ [])
        [⟨"Rent", 40, none⟩] [⟨"Rent", 60⟩]).monthlyIncome
  ∧ (buildReport ([⟨"Job", 100, some ⟨2024, 1, 5⟩⟩] ++ ⟨"Bad", 42, none⟩ :: [])
        [⟨"Rent", 40, none⟩] [⟨"Rent", 60⟩]).expensesByCategory =
      (buildReport ([⟨"Job", 100, some ⟨2024, 1, 5⟩⟩] ++ [])
        [⟨"Rent", 40, none⟩] [⟨"Rent", 60⟩]).expensesByCategory
  ∧ (buildReport ([⟨"Job", 100, some ⟨2024, 1, 5⟩⟩] ++ ⟨"Bad", 42, none⟩ :: [])
        [⟨"Rent", 40, none⟩] [⟨"Rent", 60⟩]).budgets =
      (buildReport ([⟨"Job", 100, some ⟨2024, 1, 5⟩⟩] ++ [])
        [⟨"Rent", 40, none⟩] [⟨"Rent", 60⟩]).budgets :=
  report_skip_and_continue [⟨"Job", 100, some ⟨2024, 1, 5⟩⟩] []
    ⟨"Bad", 42, none⟩ [⟨"Rent", 40, none⟩] [⟨"Rent", 60⟩] rfl

/-! ## Currency parsing (C9)

`unformatCurrency` from income.js/expense.js:

    const n = Number(String(s || '').replace(/[^0-9.-]+/g, ''));
    return Number.isFinite(n) ? n : 0;

and the budget.js variant `Number(String(s || "").replace(...)) || 0`.
The `String(s || '')` step maps a null-ish input to `""`; the embedding
takes the already-stringified input.  A JS number is `NaN`, a signed
infinity, or a finite value; finite values are kept exact (the binary64
rounding of in-range values is not modelled), but the overflow of
`Number` to `±Infinity` at magnitude `2^1024 - 2^970` IS modelled,
because the two deployed variants differ exactly there: income.js /
expense.js guard with `Number.isFinite`, while the budget.js `|| 0`
variant does not — `Infinity` is truthy and passes through. -/

/-- `String(s).replace(/[^0-9.-]+/g, '')`: delete every character that is
not a digit, `'.'` or `'-'`. -/
def stripCurrency (s : String) : String :=
  String.mk (s.data.filter (fun c => c.isDigit || c = '.' || c = '-'))

/-- Base-10 value of a digit list. -/
def digitsVal (l : List Char) : Nat :=
  l.foldl (fun n c => 10 * n + (c.toNat - 48)) 0

/-- Split a character list on `'.'`. -/
def splitOnDot : List Char → List (List Char)
  | [] => [[]]
  | c :: rest =>
      if c = '.' then [] :: splitOnDot rest
      else
        match splitOnDot rest with
        | [] => [[c]]
        | p :: ps => (c :: p) :: ps

/-- Decimal components of an unsigned body of the JS `Number()` grammar
over the alphabet `[0-9.]`: `(integer part, fraction digits value,
fraction length)` for `digits`, `digits '.' digits?` or `'.' digits`;
`none` (NaN) for anything else (a stray `'-'`, two dots, a bare dot). -/
def decParts (body : List Char) : Option (Nat × Nat × Nat) :=
  match splitOnDot body with
  | [ip] =>
      if ip ≠ [] ∧ ip.all Char.isDigit then some (digitsVal ip, 0, 0) else none
  | [ip, fp] =>
      if (ip ≠ [] ∨ fp ≠ []) ∧ ip.all Char.isDigit ∧ fp.all Char.isDigit then
        some (digitsVal ip, digitsVal fp, fp.length)
      else none
  | _ => none

/-- Exact rational value of an unsigned body, infinite-precision. -/
def parseUnsigned (body : List Char) : Option Rat :=
  match decParts body with
  | none => none
  | some (ip, fp, len) =>
      if len = 0 then some (ip : Rat)
      else some ((ip : Rat) + (fp : Rat) / ((10 ^ len : Nat) : Rat))

/-- Exact (infinite-precision) value of a pre-stripped literal: the empty
string is `0`, an optional leading `'-'` negates; `none` is NaN. -/
def exactNumber (s : String) : Option Rat :=
  match s.data with
  | [] => some 0
  | c :: rest =>
      if c = '-' then (parseUnsigned rest).map (fun q => -q)
      else parseUnsigned (c :: rest)

/-- The IEEE-754 binary64 overflow threshold: round-to-nearest-even sends
any result of magnitude `≥ 2^1024 - 2^970` to `±Infinity` (the largest
finite double is `2^1024 - 2^971`); e.g. every 310-digit integer literal
overflows. -/
def jsMaxBound : Nat := 2 ^ 1024 - 2 ^ 970

/-- Whether the literal's exact magnitude reaches the overflow threshold:
`ip + fp/10^len ≥ jsMaxBound ↔ jsMaxBound·10^len ≤ ip·10^len + fp`
(the sign is irrelevant to the magnitude). -/
def overflowsDouble (s : String) : Bool :=
  match s.data with
  | [] => false
  | c :: rest =>
      match decParts (if c = '-' then rest else c :: rest) with
      | some (ip, fp, len) => decide (jsMaxBound * 10 ^ len ≤ ip * 10 ^ len + fp)
      | none => false

/-- A JS number value: `NaN`, a signed infinity, or a finite value (kept
as its exact rational; binary64 rounding of in-range values is not
modelled — finiteness is). -/
inductive JSNum where
  | nan : JSNum
  | posInf : JSNum
  | negInf : JSNum
  | num : Rat → JSNum
deriving DecidableEq

/-- JS `Number(s)` on a pre-stripped string (only digits, `'.'`, `'-'`):
the decimal grammar of `exactNumber`, with magnitudes at or beyond the
binary64 threshold overflowing to the signed infinity. -/
def jsNumber (s : String) : JSNum :=
  match exactNumber s with
  | none => JSNum.nan
  | some q =>
      if overflowsDouble s then
        match s.data with
        | c :: _ => if c = '-' then JSNum.negInf else JSNum.posInf
        | [] => JSNum.posInf
      else JSNum.num q

/-- `unformatCurrency` of income.js/expense.js:
`Number.isFinite(n) ? n : 0` — `NaN` and `±Infinity` both become `0`. -/
def unformatCurrency (s : String) : Rat :=
  match jsNumber (stripCurrency s) with
  | JSNum.num n => n
  | _ => 0

/-- `unformatCurrency` of budget.js: `Number(...) || 0` — `NaN` and `0`
are falsy and become `0`, but `±Infinity` is truthy and passes through,
so this variant's result is a general JS number, not always finite. -/
def unformatCurrencyOr0 (s : String) : JSNum :=
  match jsNumber (stripCurrency s) with
  | JSNum.nan => JSNum.num 0
  | JSNum.num n => if n = 0 then JSNum.num 0 else JSNum.num n
  | JSNum.posInf => JSNum.posInf
  | JSNum.negInf => JSNum.negInf

set_option maxRecDepth 40000 in
/-- C9 counterexample: on a 310-digit stripped input (`'1'` followed by
309 `'0'`s, which survives the `[^0-9.-]` strip unchanged), JS `Number`
overflows binary64 to `Infinity`; `Infinity` is truthy, so the budget.js
`|| 0` variant returns it — a non-finite value and not `0` — refuting the
claim as stated for that variant. -/
theorem unformatCurrencyOr0_overflow :
    unformatCurrencyOr0 (String.mk ('1' :: List.replicate 309 '0')) =
      JSNum.posInf
  ∧ unformatCurrencyOr0 (String.mk ('1' :: List.replicate 309 '0')) ≠
      JSNum.num 0 := by
  have h : unformatCurrencyOr0 (String.mk ('1' :: List.replicate 309 '0')) =
      JSNum.posInf := by decide
  refine ⟨h, ?_⟩
  rw [h]
  decide

set_option maxRecDepth 40000 in
/-- C9 (amended): the guarded `unformatCurrency` of income.js/expense.js
is total and never NaN: the strip keeps only digits, `'.'` and `'-'`; the
parsed value is returned when `Number` yields a finite value and `0`
otherwise — unparseable remainders (NaN) and overflow to `±Infinity`
alike, including the empty string, digit-free strings, multi-dot garbage
and 310-digit overflow inputs.  The budget.js `|| 0` variant agrees on
NaN and on finite values but passes `±Infinity` through. -/
theorem unformatCurrency_finite_guard (s : String) :
    (∀ c ∈ (stripCurrency s).data, c.isDigit || c = '.' || c = '-')
  ∧ (∀ q : Rat, jsNumber (stripCurrency s) = JSNum.num q →
      unformatCurrency s = q)
  ∧ (jsNumber (stripCurrency s) = JSNum.nan → unformatCurrency s = 0)
  ∧ (jsNumber (stripCurrency s) = JSNum.posInf → unformatCurrency s = 0)
  ∧ (jsNumber (stripCurrency s) = JSNum.negInf → unformatCurrency s = 0)
  ∧ (jsNumber (stripCurrency s) = JSNum.nan →
      unformatCurrencyOr0 s = JSNum.num 0)
  ∧ (∀ q : Rat, jsNumber (stripCurrency s) = JSNum.num q →
      unformatCurrencyOr0 s = JSNum.num q)
  ∧ (jsNumber (stripCurrency s) = JSNum.posInf →
      unformatCurrencyOr0 s = JSNum.posInf)
  ∧ (jsNumber (stripCurrency s) = JSNum.negInf →
      unformatCurrencyOr0 s = JSNum.negInf)
  ∧ unformatCurrency "" = 0
  ∧ unformatCurrency "abc" = 0
  ∧ unformatCurrency "$1,234.50" = (2469 : Rat) / 2
  ∧ unformatCurrency "1.2.3" = 0
  ∧ unformatCurrency "-$12" = -12
  ∧ unformatCurrency (String.mk ('1' :: List.replicate 309 '0')) = 0 := by
  have hfrac : unformatCurrency "$1,234.50" = (2469 : Rat) / 2 := by
    have hp : unformatCurrency "$1,234.50" =
        ((digitsVal ['1', '2', '3', '4'] : Nat) : Rat) +
          ((digitsVal ['5', '0'] : Nat) : Rat) /
            ((10 ^ (['5', '0'] : List Char).length : Nat) : Rat) := rfl
    have hd1 : digitsVal ['1', '2', '3', '4'] = 1234 := rfl
    have hd2 : digitsVal ['5', '0'] = 50 := rfl
    have hlen : (['5', '0'] : List Char).length = 2 := rfl
    rw [hp, hd1, hd2, hlen]
    norm_num
  refine ⟨?_, ?_, ?_, ?_, ?_, ?_, ?_, ?_, ?_, by decide, by decide, hfrac,
    by decide, by decide, by decide⟩
  · intro c hc
    simp only [stripCurrency, List.mem_filter] at hc
    exact hc.2
  · intro q h
    unfold unformatCurrency
    rw [h]
  · intro h
    unfold unformatCurrency
    rw [h]
  · intro h
    unfold unformatCurrency
    rw [h]
  · intro h
    unfold unformatCurrency
    rw [h]
  · intro h
    unfold unformatCurrencyOr0
    rw [h]
  · intro q h
    unfold unformatCurrencyOr0
    rw [h]
    show (if q = 0 then JSNum.num 0 else JSNum.num q) = JSNum.num q
    split
    · rename_i h0
      rw [h0]
    · rfl
  · intro h
    unfold unformatCurrencyOr0
    rw [h]
  · intro h
    unfold unformatCurrencyOr0
    rw [h]

/-! ## Client-side per-category budget map (C10)

budget.js `loadEverything`:

    budgets = {};
    budRows.forEach((b) => (budgets[b.category] = Number(b.amount || 0)));

report.js `loadReport` builds `budgetsObj` the same way (with
`Number(b.amount || b.total || 0)`; rows from `/api/budgets` carry an
`amount` field, so the `b.total` fallback never fires).  The JS object is
modelled by its lookup function. -/

def JsMap := String → Option Int

/-- Property assignment `obj[k] = v`. -/
def jsSet (m : JsMap) (k : String) (v : Int) : JsMap :=
  fun q => if q = k then some v else m q

def jsEmpty : JsMap := fun _ => none

/-- The per-category budget map the budget and report pages build from the
`/api/budgets` rows. -/
def budgetsObj (rows : List BudgetRecord) : JsMap :=
  rows.foldl (fun m b => jsSet m b.category b.amount) jsEmpty

theorem getLast?_or (a : Int) (l : List Int) :
    (a :: l).getLast? = l.getLast?.or (some a) := by
  induction l with
  | nil => rfl
  | cons x xs _ =>
    rw [List.getLast?_cons_cons]
    cases h : (x :: xs).getLast? with
    | none => simp at h
    | some v => rfl

theorem budgetsObj_loop (rows : List BudgetRecord) :
    ∀ (m : JsMap) (c : String),
      rows.foldl (fun m b => jsSet m b.category b.amount) m c =
        (((rows.filter (fun r => r.category = c)).map (·.amount)).getLast?).or
          (m c) := by
  induction rows with
  | nil => intro m c; rfl
  | cons b bs ih =>
    intro m c
    simp only [List.foldl_cons]
    rw [ih]
    by_cases hb : b.category = c
    · rw [List.filter_cons_of_pos (by simp [hb]), List.map_cons, getLast?_or,
        Option.or_assoc]
      congr 1
      show (if c = b.category then some b.amount else m c) =
        (some b.amount).or (m c)
      rw [if_pos hb.symm]
      rfl
    · rw [List.filter_cons_of_neg (by simp [hb])]
      congr 1
      show (if c = b.category then some b.amount else m c) = m c
      rw [if_neg (fun hcb => hb hcb.symm)]

/-- C10: when the `/api/budgets` rows contain several rows for one
category, the per-category map built by the budget and report pages keeps
only the LAST row's amount for that category — each assignment overwrites
the previous one — never the sum: `{Rent,500},{Rent,700}` looks up to
`700`, not `1200`. -/
theorem budgetsObj_last_write (rows : List BudgetRecord) (c : String) :
    budgetsObj rows c =
      ((rows.filter (fun r => r.category = c)).map (·.amount)).getLast?
  ∧ budgetsObj [⟨"Rent", 500⟩, ⟨"Rent", 700⟩] "Rent" = some 700
  ∧ budgetsObj [⟨"Rent", 500⟩, ⟨"Rent", 700⟩] "Rent" ≠ some 1200 := by
  refine ⟨?_, by decide, by decide⟩
  show budgetsObj rows c = _
  unfold budgetsObj
  rw [budgetsObj_loop rows jsEmpty c]
  exact Option.or_none

end Team4
